import Mathlib

set_option linter.unusedVariables false

/-!
Verification development for the Home Assistant states component
(`ListHomeAssistantStates.py`), the language-model connector registry
package, and the callbacks component of this repository fragment.

JSON values are embedded as the inductive `JValue`; JSON numbers are
modelled as integers (the component never computes with numbers, and
floating point is outside the embedding).  Python's
`json.dumps(x, indent=2, ensure_ascii=False)` is embedded as `dumps`,
and a standalone JSON parser `parseJson` is provided to state the
round-trip property between the `text` and `data` fields of the `Data`
envelope.  The HTTP layer is embedded as an oracle
`http : HttpRequest -> HResp` together with an explicit trace of the
requests issued, so that "exactly one request, never retried" is a
statement about the trace.
-/

/-- JSON values as produced by `response.json()`.  Numbers are modelled
as integers. -/
inductive JValue where
  | jnull
  | jbool (b : Bool)
  | jnum (i : Int)
  | jstr (s : String)
  | jarr (items : List JValue)
  | jobj (fields : List (String × JValue))

/-- Decimal digit character, as produced by Python's `str` on `0..9`. -/
def digitChar (n : Nat) : Char :=
  match n with
  | 0 => '0' | 1 => '1' | 2 => '2' | 3 => '3' | 4 => '4'
  | 5 => '5' | 6 => '6' | 7 => '7' | 8 => '8' | _ => '9'

/-- Lower-case hexadecimal digit character, as produced by Python's
`json.dumps` in `\uXXXX` escapes. -/
def hexChar (n : Nat) : Char :=
  match n with
  | 0 => '0' | 1 => '1' | 2 => '2' | 3 => '3' | 4 => '4' | 5 => '5' | 6 => '6' | 7 => '7'
  | 8 => '8' | 9 => '9' | 10 => 'a' | 11 => 'b' | 12 => 'c' | 13 => 'd' | 14 => 'e' | _ => 'f'

/-- Decimal digit expansion of a natural number, most significant digit
first, as produced by Python's `str`. -/
def natToChars (n : Nat) : List Char :=
  if _h : n < 10 then [digitChar n] else natToChars (n / 10) ++ [digitChar (n % 10)]
decreasing_by exact Nat.div_lt_self (by omega) (by omega)

/-- Decimal rendering of an integer, as produced by Python's `str`. -/
def intToChars (i : Int) : List Char :=
  if i < 0 then '-' :: natToChars i.natAbs else natToChars i.natAbs

/-- JSON string escaping of one character, following
`json.dumps(..., ensure_ascii=False)`: it escapes the quote, the
backslash, and control characters below `0x20` (the named escapes for
newline, tab, carriage return, backspace and form feed, and `\u00XX`
for the rest), and leaves every other character literal. -/
def escapeChar (c : Char) : List Char :=
  if c = '"' then ['\\', '"']
  else if c = '\\' then ['\\', '\\']
  else if c = '\n' then ['\\', 'n']
  else if c = '\t' then ['\\', 't']
  else if c = '\r' then ['\\', 'r']
  else if c = '\x08' then ['\\', 'b']
  else if c = '\x0c' then ['\\', 'f']
  else if c.toNat < 32 then ['\\', 'u', '0', '0', hexChar (c.toNat / 16), hexChar (c.toNat % 16)]
  else [c]

/-- JSON string escaping of a character sequence. -/
def escapeChars : List Char → List Char
  | [] => []
  | c :: cs => escapeChar c ++ escapeChars cs

/-- Indentation emitted by `json.dumps(..., indent=2)` at nesting
depth `d`. -/
def indentChars (d : Nat) : List Char := List.replicate (2 * d) ' '

mutual

/-- Rendering of a JSON value by `json.dumps(x, indent=2, ensure_ascii=False)`
at nesting depth `d`. -/
def renderV : JValue → Nat → List Char
  | .jnull, _ => "null".data
  | .jbool true, _ => "true".data
  | .jbool false, _ => "false".data
  | .jnum i, _ => intToChars i
  | .jstr s, _ => '"' :: escapeChars s.data ++ ['"']
  | .jarr [], _ => ['[', ']']
  | .jarr (x :: xs), d =>
      '[' :: '\n' :: renderItems (x :: xs) (d + 1) ++ '\n' :: indentChars d ++ [']']
  | .jobj [], _ => ['{', '}']
  | .jobj (f :: fs), d =>
      '{' :: '\n' :: renderFields (f :: fs) (d + 1) ++ '\n' :: indentChars d ++ ['}']

/-- Rendering of the comma-and-newline separated items of a non-empty
JSON array at item depth `d`. -/
def renderItems : List JValue → Nat → List Char
  | [], _ => []
  | [x], d => indentChars d ++ renderV x d
  | x :: y :: xs, d =>
      indentChars d ++ renderV x d ++ ',' :: '\n' :: renderItems (y :: xs) d

/-- Rendering of the comma-and-newline separated `"key": value` entries
of a non-empty JSON object at entry depth `d`. -/
def renderFields : List (String × JValue) → Nat → List Char
  | [], _ => []
  | [(k, v)], d =>
      indentChars d ++ '"' :: escapeChars k.data ++ '"' :: ':' :: ' ' :: renderV v d
  | (k, v) :: g :: fs, d =>
      indentChars d ++ '"' :: escapeChars k.data ++ '"' :: ':' :: ' ' :: renderV v d ++
        ',' :: '\n' :: renderFields (g :: fs) d

end

/-- Embedding of `json.dumps(x, indent=2, ensure_ascii=False)`. -/
def dumps (v : JValue) : String := String.mk (renderV v 0)

/-- Whitespace characters skipped between JSON tokens. -/
def isWsChar (c : Char) : Bool := c = ' ' || c = '\n' || c = '\t' || c = '\r'

/-- Drop leading JSON whitespace. -/
def skipWs : List Char → List Char
  | [] => []
  | c :: rest => if isWsChar c then skipWs rest else c :: rest

/-- Value of a hexadecimal digit character. -/
def hexVal (c : Char) : Option Nat :=
  if '0' ≤ c ∧ c ≤ '9' then some (c.toNat - 48)
  else if 'a' ≤ c ∧ c ≤ 'f' then some (c.toNat - 87)
  else if 'A' ≤ c ∧ c ≤ 'F' then some (c.toNat - 55)
  else none

/-- Resolution of a single-character JSON string escape. -/
def unescapeChar (c : Char) : Option Char :=
  if c = '"' then some '"'
  else if c = '\\' then some '\\'
  else if c = '/' then some '/'
  else if c = 'n' then some '\n'
  else if c = 't' then some '\t'
  else if c = 'r' then some '\r'
  else if c = 'b' then some '\x08'
  else if c = 'f' then some '\x0c'
  else none

/-- Parse the body of a JSON string (the opening quote already
consumed) up to and including the closing quote, returning the decoded
characters and the remaining input. -/
def parseStrAux : List Char → Option (List Char × List Char)
  | [] => none
  | c :: rest =>
    if c = '"' then some ([], rest)
    else if c = '\\' then
      match rest with
      | [] => none
      | e :: rest2 =>
        if e = 'u' then
          match rest2 with
          | a :: b :: c2 :: d2 :: rest3 =>
            (match hexVal a, hexVal b, hexVal c2, hexVal d2 with
             | some x1, some x2, some x3, some x4 =>
               (match parseStrAux rest3 with
                | some (cs, r) =>
                    some (Char.ofNat (((x1 * 16 + x2) * 16 + x3) * 16 + x4) :: cs, r)
                | none => none)
             | _, _, _, _ => none)
          | _ => none
        else
          match unescapeChar e with
          | some ch =>
            (match parseStrAux rest2 with
             | some (cs, r) => some (ch :: cs, r)
             | none => none)
          | none => none
    else
      match parseStrAux rest with
      | some (cs, r) => some (c :: cs, r)
      | none => none

/-- Parse a maximal run of decimal digits, folding them onto `acc`. -/
def parseDigitsAcc : Nat → List Char → Nat × List Char
  | acc, [] => (acc, [])
  | acc, c :: rest =>
      if c.isDigit then parseDigitsAcc (acc * 10 + (c.toNat - 48)) rest else (acc, c :: rest)

mutual

/-- Recursive-descent JSON value parser with explicit fuel. -/
def parseV : Nat → List Char → Option (JValue × List Char)
  | 0, _ => none
  | fuel + 1, input =>
    match skipWs input with
    | [] => none
    | c :: rest =>
      if c = '"' then
        match parseStrAux rest with
        | some (cs, r) => some (.jstr (String.mk cs), r)
        | none => none
      else if c = '[' then
        match skipWs rest with
        | [] => none
        | c2 :: r =>
          if c2 = ']' then some (.jarr [], r)
          else
            match parseItemsV fuel (c2 :: r) with
            | some (xs, r3) => some (.jarr xs, r3)
            | none => none
      else if c = '{' then
        match skipWs rest with
        | [] => none
        | c2 :: r =>
          if c2 = '}' then some (.jobj [], r)
          else
            match parseFieldsV fuel (c2 :: r) with
            | some (fs, r3) => some (.jobj fs, r3)
            | none => none
      else if c = 'n' then
        match rest with
        | 'u' :: 'l' :: 'l' :: r => some (.jnull, r)
        | _ => none
      else if c = 't' then
        match rest with
        | 'r' :: 'u' :: 'e' :: r => some (.jbool true, r)
        | _ => none
      else if c = 'f' then
        match rest with
        | 'a' :: 'l' :: 's' :: 'e' :: r => some (.jbool false, r)
        | _ => none
      else if c = '-' then
        match rest with
        | d :: _ =>
          if d.isDigit then
            some (.jnum (-(Int.ofNat (parseDigitsAcc 0 rest).1)), (parseDigitsAcc 0 rest).2)
          else none
        | [] => none
      else if c.isDigit then
        some (.jnum (Int.ofNat (parseDigitsAcc 0 (c :: rest)).1), (parseDigitsAcc 0 (c :: rest)).2)
      else none

/-- Parse the items of a non-empty JSON array up to and including the
closing bracket. -/
def parseItemsV : Nat → List Char → Option (List JValue × List Char)
  | 0, _ => none
  | fuel + 1, input =>
    match parseV fuel input with
    | none => none
    | some (v, r1) =>
      match skipWs r1 with
      | [] => none
      | c2 :: r2 =>
        if c2 = ',' then
          match parseItemsV fuel r2 with
          | some (vs, r3) => some (v :: vs, r3)
          | none => none
        else if c2 = ']' then some ([v], r2)
        else none

/-- Parse the entries of a non-empty JSON object up to and including
the closing brace. -/
def parseFieldsV : Nat → List Char → Option (List (String × JValue) × List Char)
  | 0, _ => none
  | fuel + 1, input =>
    match skipWs input with
    | [] => none
    | c0 :: r0 =>
      if c0 = '"' then
        match parseStrAux r0 with
        | some (kcs, r1) =>
          (match skipWs r1 with
           | [] => none
           | c1 :: r2 =>
             if c1 = ':' then
               match parseV fuel r2 with
               | none => none
               | some (v, r3) =>
                 (match skipWs r3 with
                  | [] => none
                  | c3 :: r4 =>
                    if c3 = ',' then
                      match parseFieldsV fuel r4 with
                      | some (fs, r5) => some ((String.mk kcs, v) :: fs, r5)
                      | none => none
                    else if c3 = '}' then some ([(String.mk kcs, v)], r4)
                    else none)
             else none)
        | none => none
      else none

end

/-- Parse a complete JSON document: one value, possibly surrounded by
whitespace, consuming the whole input. -/
def parseJson (s : String) : Option JValue :=
  match parseV (s.data.length + 1) s.data with
  | some (v, r) =>
    (match skipWs r with
     | [] => some v
     | _ => none)
  | none => none

/-- Does the input start with a decimal digit?  A rendered number
followed by such an input would be extended by the parser, so the
round-trip statements exclude it. -/
def headDigit : List Char → Bool
  | [] => false
  | c :: _ => c.isDigit

mutual

/-- Fuel sufficient for `parseV` to parse the rendering of a value. -/
def need : JValue → Nat
  | .jnull => 1
  | .jbool _ => 1
  | .jnum _ => 1
  | .jstr _ => 1
  | .jarr xs => 1 + needItems xs
  | .jobj fs => 1 + needFields fs

/-- Fuel sufficient for `parseItemsV` on the rendered items. -/
def needItems : List JValue → Nat
  | [] => 0
  | x :: xs => 1 + max (need x) (needItems xs)

/-- Fuel sufficient for `parseFieldsV` on the rendered entries. -/
def needFields : List (String × JValue) → Nat
  | [] => 0
  | (_, v) :: fs => 1 + max (need v) (needFields fs)

end

/-- One outbound HTTP request as issued by `requests.get`. -/
structure HttpRequest where
  method : String
  url : String
  headers : List (String × String)
  timeout : Nat
deriving DecidableEq

/-- Outcome of the external call, seen from inside the `try` block:
either a `requests.exceptions.RequestException` (connection failure, or
a non-2xx status raised by `raise_for_status`) carrying its message, or
a 2xx response whose body parsed as the JSON value `body`. -/
inductive HResp where
  | err (msg : String)
  | ok (body : JValue)

/-- The single request built by `_list_states`: a GET on
`base_url + "/api/states"` with bearer-token and content-type headers
and a fixed timeout of 10. -/
def statesRequest (ha_token base_url : String) : HttpRequest :=
  { method := "GET"
    url := base_url ++ "/api/states"
    headers := [("Authorization", "Bearer " ++ ha_token), ("Content-Type", "application/json")]
    timeout := 10 }

/-- Python `dict` lookup on the fields of a JSON object. -/
def dget : List (String × JValue) → String → Option JValue
  | [], _ => none
  | (k', v) :: rest, k => if k' = k then some v else dget rest k

/-- Python's `s.startswith(pre)`. -/
def pyStartsWith (s pre : String) : Bool := pre.data.isPrefixOf s.data

/-- Evaluation of `st.get("entity_id", "").startswith(filter_domain + ".")`
on one upstream item: `none` models the comprehension raising (the item
is not a dict, or its `entity_id` value is not a string). -/
def entityCheck (filter_domain : String) (st : JValue) : Option Bool :=
  match st with
  | .jobj fs =>
    (match dget fs "entity_id" with
     | none => some (pyStartsWith "" (filter_domain ++ "."))
     | some (.jstr s) => some (pyStartsWith s (filter_domain ++ "."))
     | some _ => none)
  | _ => none

/-- The list comprehension of `_list_states`: keep the items whose
`entity_id` starts with `filter_domain + "."`; `none` models the
comprehension raising at some item. -/
def filterStates (filter_domain : String) : List JValue → Option (List JValue)
  | [] => some []
  | st :: rest =>
    match entityCheck filter_domain st with
    | none => none
    | some b =>
      (match filterStates filter_domain rest with
       | some r => some (if b then st :: r else r)
       | none => none)

/-- Post-response processing of `_list_states`: the filter branch on a
truthy `filter_domain`, the two `except` arms, and the raw body
otherwise.  The comprehension iterates whatever `response.json()`
returned: an empty dict or an empty string iterates zero items, so the
comprehension returns `[]` without raising; a non-empty dict iterates
its string keys and a non-empty string its characters, so `st.get`
raises AttributeError at the first item; `None`, booleans and numbers
are not iterable and raise TypeError.  `excMsg` stands for `str(e)` of
the unexpected exception on any raising path. -/
def processStates (filter_domain excMsg : String) (resp : HResp) : JValue :=
  match resp with
  | .err e => .jstr ("Error: Failed to fetch states. " ++ e)
  | .ok body =>
    if filter_domain = "" then body
    else
      match body with
      | .jarr xs =>
        (match filterStates filter_domain xs with
         | some filtered => .jarr filtered
         | none => .jstr ("An unexpected error occurred: " ++ excMsg))
      | .jobj [] => .jarr []
      | .jstr s =>
          if s = "" then .jarr []
          else .jstr ("An unexpected error occurred: " ++ excMsg)
      | _ => .jstr ("An unexpected error occurred: " ++ excMsg)

/-- Does the filter comprehension raise on this non-list body?  An
empty dict and an empty string iterate zero items (no raise); a
non-empty dict yields string keys and a non-empty string yields
characters, both raising AttributeError at `st.get`; `None`, booleans
and numbers are not iterable and raise TypeError.  Lists are excluded
here: on a list the comprehension raises exactly when `filterStates`
returns `none`. -/
def nonListRaises (body : JValue) : Bool :=
  match body with
  | .jarr _ => false
  | .jobj [] => false
  | .jobj _ => true
  | .jstr s => if s = "" then false else true
  | _ => true

/-- Embedding of `_list_states`: build the one request, hand it to the
HTTP oracle, and process the outcome.  The first component is the trace
of requests issued during the call. -/
def _list_states (ha_token base_url filter_domain excMsg : String)
    (http : HttpRequest → HResp) : List HttpRequest × JValue :=
  ([statesRequest ha_token base_url],
    processStates filter_domain excMsg (http (statesRequest ha_token base_url)))

/-- Component state: the three declared input fields.  `filter_domain`
is optional in the UI, so it is a `none`-able string. -/
structure ListHomeAssistantStates where
  ha_token : String
  base_url : String
  filter_domain : Option String

/-- Python's `x or ""` on the optional `filter_domain` attribute. -/
def pyOrEmpty : Option String → String
  | none => ""
  | some s => s

/-- Embedding of `_list_states_for_tool`: the narrowed surface takes
only `filter_domain` and reads the token and base URL from `self`. -/
def _list_states_for_tool (s : ListHomeAssistantStates) (filter_domain excMsg : String)
    (http : HttpRequest → HResp) : List HttpRequest × JValue :=
  _list_states s.ha_token s.base_url filter_domain excMsg http

/-- The `Data` envelope of `langflow.schema`: a structured payload
(always a dict in this component) and a text rendering. -/
structure Data where
  data : List (String × JValue)
  text : String

/-- Embedding of `_make_data_response`: wrap a list under a `"result"`
key, pass a dict through, pass a string through as bare text with an
empty payload, and reject any other shape. -/
def _make_data_response (result : JValue) : Data :=
  match result with
  | .jarr xs =>
      { data := [("result", .jarr xs)], text := dumps (.jobj [("result", .jarr xs)]) }
  | .jobj fs => { data := fs, text := dumps (.jobj fs) }
  | .jstr s => { data := [], text := s }
  | _ => { data := [], text := "Error: Unexpected response format." }

/-- Embedding of `run_model`: the direct (operator-triggered)
invocation, returning the request trace and the `Data` envelope. -/
def run_model (s : ListHomeAssistantStates) (excMsg : String)
    (http : HttpRequest → HResp) : List HttpRequest × Data :=
  let r := _list_states s.ha_token s.base_url (pyOrEmpty s.filter_domain) excMsg http
  (r.1, _make_data_response r.2)

/-- Declared input metadata of the component (names, required flags,
secrecy), from the `inputs` list of the source. -/
structure InputField where
  name : String
  display_name : String
  required : Bool
  secret : Bool

/-- The three declared inputs of `ListHomeAssistantStates`. -/
def inputs : List InputField :=
  [ { name := "ha_token", display_name := "Home Assistant Token", required := true, secret := true }
  , { name := "base_url", display_name := "Home Assistant URL", required := true, secret := false }
  , { name := "filter_domain", display_name := "Default Filter Domain (Optional)"
    , required := false, secret := false } ]

/-- Field names of the pydantic `ToolSchema`: the only parameter the
agent-facing tool exposes. -/
def ToolSchema_fields : List String := ["filter_domain"]

/-- The agent-facing tool object built by `build_tool`. -/
structure ToolModel where
  name : String
  args_fields : List String

/-- Embedding of `build_tool`: the `StructuredTool` whose argument
schema is `ToolSchema` and whose function is `_list_states_for_tool`. -/
def build_tool (s : ListHomeAssistantStates) : ToolModel :=
  { name := "list_homeassistant_states", args_fields := ToolSchema_fields }

/-- Does the request carry a value for field `n`? -/
def hasField (req : List (String × String)) (n : String) : Bool :=
  req.any (fun p => p.1 == n)

/-- Value of field `n` in the request (empty when absent). -/
def getField (req : List (String × String)) (n : String) : String :=
  match req.find? (fun p => p.1 == n) with
  | some p => p.2
  | none => ""

/-- Modelled from the spec: the host framework's required-field
validation is not part of src/ (the source only declares the
`required=True` flags); per the spec, any field marked required but
absent fails with `MissingField` before the external call, and
unrecognized fields are ignored.  This returns the first declared
required field absent from the request. -/
def firstMissingRequired (req : List (String × String)) : Option String :=
  match (inputs.filter (fun f => f.required)).find? (fun f => !hasField req f.name) with
  | some f => some f.name
  | none => none

/-- Outcome of a validated invocation: a `MissingField` failure or a
completed `Data` envelope. -/
inductive InvokeOutcome where
  | missingField (name : String)
  | done (env : Data)

/-- Modelled from the spec: `invoke(request)` validates the declared
required fields and only then performs the external call; the trace
component lists the HTTP requests issued. -/
def invoke (req : List (String × String)) (excMsg : String)
    (http : HttpRequest → HResp) : List HttpRequest × InvokeOutcome :=
  match firstMissingRequired req with
  | some n => ([], .missingField n)
  | none =>
    let r := _list_states (getField req "ha_token") (getField req "base_url")
      (getField req "filter_domain") excMsg http
    (r.1, .done (_make_data_response r.2))

/-- Registry failure modes, from the spec's error taxonomy. -/
inductive RegistryError where
  | DuplicateIdentifier
  | UnknownConnector
deriving DecidableEq

/-- Modelled from the spec: the connector registry (a mapping from
identifier to factory) whose machinery is not part of src/; the
`languagemodels` package only lists the registered component names. -/
structure ConnectorRegistry (α : Type) where
  entries : List (String × α)

/-- Modelled from the spec: `register(spec, factory)` fails with
`DuplicateIdentifier` if the identifier already exists, and otherwise
appends the entry. -/
def register {α : Type} (r : ConnectorRegistry α) (id : String) (f : α) :
    Except RegistryError (ConnectorRegistry α) :=
  if r.entries.any (fun p => p.1 == id) then .error .DuplicateIdentifier
  else .ok ⟨r.entries ++ [(id, f)]⟩

/-- Modelled from the spec: `resolve(identifier)` returns the factory
or fails with `UnknownConnector` if absent. -/
def resolve {α : Type} (r : ConnectorRegistry α) (id : String) : Except RegistryError α :=
  match r.entries.find? (fun p => p.1 == id) with
  | some p => .ok p.2
  | none => .error .UnknownConnector

/-- The connector identifiers exported by the `languagemodels` package
(`__all__` of its `__init__.py`). -/
def languagemodelsAll : List String :=
  [ "AIMLModelComponent", "AnthropicModelComponent", "AzureChatOpenAIComponent"
  , "ChatOllamaComponent", "ChatVertexAIComponent", "CohereComponent"
  , "DeepSeekModelComponent", "GoogleGenerativeAIComponent", "GroqModel"
  , "HuggingFaceEndpointsComponent", "LMStudioModelComponent", "MaritalkModelComponent"
  , "MistralAIModelComponent", "NVIDIAModelComponent", "NovitaModelComponent"
  , "OpenAIModelComponent", "OpenRouterComponent", "PerplexityComponent"
  , "QianfanChatEndpointComponent", "SambaNovaComponent", "SwamaModelComponent"
  , "WatsonxAIComponent", "XAIModelComponent" ]

/-- Well-formed upstream item, matching the spec's description of a
successful `/api/states` body: a JSON object whose `entity_id`, when
present, is a string.  On such items the filter comprehension cannot
raise. -/
def wfState (st : JValue) : Bool :=
  match st with
  | .jobj fs =>
    (match dget fs "entity_id" with
     | none => true
     | some (.jstr _) => true
     | some _ => false)
  | _ => false

/-- Is the formatter argument a structured success value (a JSON list
or a JSON mapping)? -/
def isListOrDict (v : JValue) : Bool :=
  match v with
  | .jarr _ => true
  | .jobj _ => true
  | _ => false

/-- Is the value a JSON list? -/
def isArr (v : JValue) : Bool :=
  match v with
  | .jarr _ => true
  | _ => false

/-- The payload the spec prescribes for a structured success value. -/
def expectedPayload (v : JValue) : List (String × JValue) :=
  match v with
  | .jarr xs => [("result", .jarr xs)]
  | .jobj fs => fs
  | _ => []

/-- Numeric value of a digit run, folded onto `acc` the way
`parseDigitsAcc` folds it. -/
def digitsFold : Nat → List Char → Nat
  | acc, [] => acc
  | acc, c :: cs => digitsFold (acc * 10 + (c.toNat - 48)) cs

/-- Round-trip property of one value: the parser recovers `v` from its
rendering at any depth, in front of any continuation that does not
start with a digit, given enough fuel. -/
def ParsesBack (v : JValue) : Prop :=
  ∀ (d : Nat) (rest : List Char) (fuel : Nat), need v ≤ fuel → headDigit rest = false →
    parseV fuel (renderV v d ++ rest) = some (v, rest)

/-- Round-trip property of a non-empty item list: `parseItemsV`
recovers the items from their rendering followed by the closing
newline, indentation and bracket. -/
def ItemsParseBack (xs : List JValue) : Prop :=
  ∀ (d dc : Nat) (rest : List Char) (fuel : Nat), needItems xs ≤ fuel →
    parseItemsV fuel (renderItems xs d ++ ('\n' :: (indentChars dc ++ (']' :: rest))))
      = some (xs, rest)

/-- Round-trip property of a non-empty field list: `parseFieldsV`
recovers the entries from their rendering followed by the closing
newline, indentation and brace. -/
def FieldsParseBack (fs : List (String × JValue)) : Prop :=
  ∀ (d dc : Nat) (rest : List Char) (fuel : Nat), needFields fs ≤ fuel →
    parseFieldsV fuel (renderFields fs d ++ ('\n' :: (indentChars dc ++ ('\x7d' :: rest))))
      = some (fs, rest)

/-- The spec's end-to-end example upstream collection, preceded by one
state object lacking the entity_id key. -/
def exampleStates : List JValue :=
  [ .jobj [("state", .jstr "off")]
  , .jobj [("entity_id", .jstr "light.kitchen"), ("state", .jstr "on")]
  , .jobj [("entity_id", .jstr "sensor.temp"), ("state", .jstr "21")] ]

/-! Helper lemmas about string prefixes and the filter. -/

theorem pyStartsWith_append_right (s e p : String) (h : pyStartsWith s p = true) :
    pyStartsWith (s ++ e) p = true := by
  unfold pyStartsWith at h ⊢
  rw [String.data_append]
  rw [List.isPrefixOf_iff_prefix] at h ⊢
  exact h.trans (List.prefix_append _ _)

theorem pyStartsWith_empty_dot (d : String) : pyStartsWith "" (d ++ ".") = false := by
  unfold pyStartsWith
  rw [String.data_append]
  cases hd : d.data with
  | nil => rfl
  | cons c cs => rfl

theorem entityCheck_isSome_of_wf (d : String) (st : JValue) (h : wfState st = true) :
    ∃ b, entityCheck d st = some b := by
  cases st with
  | jobj fs =>
    simp only [wfState] at h
    simp only [entityCheck]
    cases hg : dget fs "entity_id" with
    | none => exact ⟨_, rfl⟩
    | some v =>
      rw [hg] at h
      cases v <;> simp at h <;> exact ⟨_, rfl⟩
  | jnull => simp [wfState] at h
  | jbool b => simp [wfState] at h
  | jnum i => simp [wfState] at h
  | jstr s => simp [wfState] at h
  | jarr xs => simp [wfState] at h

theorem filterStates_isSome_of_wf (d : String) (xs : List JValue)
    (h : ∀ st ∈ xs, wfState st = true) : ∃ ys, filterStates d xs = some ys := by
  induction xs with
  | nil => exact ⟨[], rfl⟩
  | cons st rest ih =>
    obtain ⟨b, hb⟩ := entityCheck_isSome_of_wf d st (h st (by simp))
    obtain ⟨r, hr⟩ := ih (fun x hx => h x (by simp [hx]))
    exact ⟨if b then st :: r else r, by simp [filterStates, hb, hr]⟩

theorem filterStates_spec (d : String) (xs ys : List JValue)
    (h : filterStates d xs = some ys) :
    List.Sublist ys xs ∧ ∀ y ∈ ys, entityCheck d y = some true := by
  induction xs generalizing ys with
  | nil =>
    simp only [filterStates] at h
    cases h
    exact ⟨List.Sublist.refl _, by simp⟩
  | cons st rest ih =>
    simp only [filterStates] at h
    cases hc : entityCheck d st with
    | none => rw [hc] at h; cases h
    | some b =>
      rw [hc] at h
      cases hr : filterStates d rest with
      | none => rw [hr] at h; cases h
      | some r =>
        rw [hr] at h
        obtain ⟨hsub, hmem⟩ := ih r hr
        cases b with
        | true =>
          simp at h
          cases h
          refine ⟨List.Sublist.cons₂ _ hsub, ?_⟩
          intro y hy
          rcases List.mem_cons.mp hy with hy | hy
          · rw [hy]; exact hc
          · exact hmem y hy
        | false =>
          simp at h
          cases h
          exact ⟨List.Sublist.cons _ hsub, hmem⟩

theorem entityCheck_true_shape (d : String) (st : JValue) (hd : d ≠ "")
    (h : entityCheck d st = some true) :
    ∃ fs eid, st = .jobj fs ∧ dget fs "entity_id" = some (.jstr eid)
      ∧ pyStartsWith eid (d ++ ".") = true := by
  cases st with
  | jobj fs =>
    simp only [entityCheck] at h
    cases hg : dget fs "entity_id" with
    | none =>
      rw [hg] at h
      rw [pyStartsWith_empty_dot] at h
      cases h
    | some v =>
      rw [hg] at h
      cases v <;> simp at h
      exact ⟨fs, _, rfl, hg, h⟩
  | jnull => simp [entityCheck] at h
  | jbool b => simp [entityCheck] at h
  | jnum i => simp [entityCheck] at h
  | jstr s => simp [entityCheck] at h
  | jarr xs => simp [entityCheck] at h

theorem entityCheck_no_entity (d : String) (fs : List (String × JValue))
    (h : dget fs "entity_id" = none) : entityCheck d (.jobj fs) = some false := by
  simp only [entityCheck, h]
  rw [pyStartsWith_empty_dot]

/-- C1: with a non-empty filter_domain d and a successful upstream JSON
list of well-formed state objects, the narrowed tool call returns a
list in which every item's entity_id starts with d followed by a dot,
and every returned item occurs in the upstream list; run_model wraps
the same list under the result key. -/
theorem filter_domain_prefix_subset (s : ListHomeAssistantStates) (d em : String)
    (hd : d ≠ "") (xs : List JValue) (hwf : ∀ st ∈ xs, wfState st = true) :
    ∃ ys,
      (_list_states_for_tool s d em (fun _ => .ok (.jarr xs))).2 = .jarr ys
      ∧ (run_model ⟨s.ha_token, s.base_url, some d⟩ em (fun _ => .ok (.jarr xs))).2.data
          = [("result", .jarr ys)]
      ∧ (∀ y ∈ ys, ∃ fs eid, y = .jobj fs ∧ dget fs "entity_id" = some (.jstr eid)
          ∧ pyStartsWith eid (d ++ ".") = true)
      ∧ (∀ y ∈ ys, y ∈ xs) := by
  obtain ⟨ys, hys⟩ := filterStates_isSome_of_wf d xs hwf
  obtain ⟨hsub, hmem⟩ := filterStates_spec d xs ys hys
  refine ⟨ys, ?_, ?_, ?_, ?_⟩
  · simp [_list_states_for_tool, _list_states, processStates, hd, hys]
  · simp [run_model, _list_states, processStates, pyOrEmpty, hd, hys, _make_data_response]
  · intro y hy
    exact entityCheck_true_shape d y hd (hmem y hy)
  · intro y hy
    exact hsub.subset hy

/-- C2: with filter_domain empty or absent, run_model returns a payload
whose result key holds the full upstream collection unchanged. -/
theorem no_filter_returns_all (t u : String) (fd : Option String)
    (hfd : fd = none ∨ fd = some "") (em : String) (xs : List JValue) :
    (run_model ⟨t, u, fd⟩ em (fun _ => .ok (.jarr xs))).2.data = [("result", .jarr xs)]
    ∧ dget (run_model ⟨t, u, fd⟩ em (fun _ => .ok (.jarr xs))).2.data "result"
        = some (.jarr xs) := by
  rcases hfd with h | h <;> subst h <;> exact ⟨rfl, rfl⟩

/-- C3: on any transport failure (the oracle answers with a
RequestException), run_model returns an envelope with empty payload and
a text beginning with "Error:"; the embedding is a total function, so
no exception reaches the caller. -/
theorem transport_error_envelope (t u : String) (fd : Option String) (em e : String) :
    (run_model ⟨t, u, fd⟩ em (fun _ => .err e)).2.data = []
    ∧ pyStartsWith (run_model ⟨t, u, fd⟩ em (fun _ => .err e)).2.text "Error:" = true := by
  constructor
  · rfl
  · show pyStartsWith ("Error: Failed to fetch states. " ++ e) "Error:" = true
    exact pyStartsWith_append_right _ _ _ rfl

/-- C6: the invocation issues exactly one HTTP request, a GET on
base_url ++ "/api/states" with the bearer and content-type headers and
timeout 10, whatever the oracle answers (hence never retried); the same
holds through run_model. -/
theorem single_get_request (t u fd em : String) (fdo : Option String)
    (http : HttpRequest → HResp) :
    (_list_states t u fd em http).1 =
      [ { method := "GET"
          url := u ++ "/api/states"
          headers := [("Authorization", "Bearer " ++ t), ("Content-Type", "application/json")]
          timeout := 10 } ]
    ∧ (run_model ⟨t, u, fdo⟩ em http).1 =
      [ { method := "GET"
          url := u ++ "/api/states"
          headers := [("Authorization", "Bearer " ++ t), ("Content-Type", "application/json")]
          timeout := 10 } ] :=
  ⟨rfl, rfl⟩

/-- C7: the narrowed tool invocation equals the full underlying call on
the bound token and base URL, and the tool's argument schema exposes
only filter_domain, not the secret token or the endpoint. -/
theorem dual_exposure_equivalence (s : ListHomeAssistantStates) (fd em : String)
    (http : HttpRequest → HResp) :
    _list_states_for_tool s fd em http = _list_states s.ha_token s.base_url fd em http
    ∧ (build_tool s).args_fields = ["filter_domain"]
    ∧ "ha_token" ∉ (build_tool s).args_fields
    ∧ "base_url" ∉ (build_tool s).args_fields := by
  refine ⟨rfl, rfl, ?_, ?_⟩
  · show ("ha_token" : String) ∉ ["filter_domain"]
    decide
  · show ("base_url" : String) ∉ ["filter_domain"]
    decide

/-- C10: with a non-empty filter_domain, an upstream object lacking the
entity_id key is excluded from the filtered result, and the result is
an order-preserving subsequence of the upstream list. -/
theorem filter_skips_missing_entity_id (t u d em : String) (hd : d ≠ "")
    (xs : List JValue) (hwf : ∀ st ∈ xs, wfState st = true) :
    ∃ ys, (_list_states t u d em (fun _ => .ok (.jarr xs))).2 = .jarr ys
      ∧ List.Sublist ys xs
      ∧ ∀ fs, JValue.jobj fs ∈ xs → dget fs "entity_id" = none → JValue.jobj fs ∉ ys := by
  obtain ⟨ys, hys⟩ := filterStates_isSome_of_wf d xs hwf
  obtain ⟨hsub, hmem⟩ := filterStates_spec d xs ys hys
  refine ⟨ys, ?_, hsub, ?_⟩
  · simp [_list_states, processStates, hd, hys]
  · intro fs hin hnone hmem'
    have h1 := hmem _ hmem'
    rw [entityCheck_no_entity d fs hnone] at h1
    cases h1

/-- C4 (counterexample): an unexpected exception inside the call (here
the comprehension hitting a non-dict item with a non-empty filter)
yields an envelope whose payload is empty but whose text does NOT begin
with "Error:" — it begins with "An unexpected error occurred:", so the
claim that every exception is converted to a text of the form
"Error: ..." is false. -/
theorem unexpected_error_text_counterexample :
    (run_model ⟨"token", "http://ha", some "light"⟩ "object has no attribute get"
        (fun _ => .ok (.jarr [.jnum 7]))).2.data = []
    ∧ pyStartsWith
        (run_model ⟨"token", "http://ha", some "light"⟩ "object has no attribute get"
          (fun _ => .ok (.jarr [.jnum 7]))).2.text "Error:" = false :=
  ⟨rfl, rfl⟩

/-- C4 (amended): every failure path terminates in an envelope with
empty payload and never propagates an exception (the embedding is
total); a transport error produces a text beginning with "Error:",
while an unexpected exception during response processing - the filter
comprehension raising on a list item, or, under a non-empty filter, a
non-list body whose iteration raises (a non-empty dict or string, or a
non-iterable) - produces a text beginning with "An unexpected error
occurred:".  Empty-dict and empty-string bodies iterate zero items and
are not failures: they return a success envelope. -/
theorem failure_paths_envelope (t u : String) (fd : Option String) (em e : String) :
    ((run_model ⟨t, u, fd⟩ em (fun _ => .err e)).2.data = []
      ∧ pyStartsWith (run_model ⟨t, u, fd⟩ em (fun _ => .err e)).2.text "Error:" = true)
    ∧ (∀ xs, pyOrEmpty fd ≠ "" → filterStates (pyOrEmpty fd) xs = none →
        (run_model ⟨t, u, fd⟩ em (fun _ => .ok (.jarr xs))).2.data = []
        ∧ pyStartsWith (run_model ⟨t, u, fd⟩ em (fun _ => .ok (.jarr xs))).2.text
            "An unexpected error occurred:" = true)
    ∧ (∀ b, pyOrEmpty fd ≠ "" → nonListRaises b = true →
        (run_model ⟨t, u, fd⟩ em (fun _ => .ok b)).2.data = []
        ∧ pyStartsWith (run_model ⟨t, u, fd⟩ em (fun _ => .ok b)).2.text
            "An unexpected error occurred:" = true) := by
  refine ⟨⟨rfl, ?_⟩, ?_, ?_⟩
  · show pyStartsWith ("Error: Failed to fetch states. " ++ e) "Error:" = true
    exact pyStartsWith_append_right _ _ _ rfl
  · intro xs hfd hnone
    constructor
    · simp [run_model, _list_states, processStates, _make_data_response, hfd, hnone]
    · have : (run_model ⟨t, u, fd⟩ em (fun _ => .ok (.jarr xs))).2.text
          = "An unexpected error occurred: " ++ em := by
        simp [run_model, _list_states, processStates, _make_data_response, hfd, hnone]
      rw [this]
      exact pyStartsWith_append_right _ _ _ rfl
  · intro b hfd hb
    cases b with
    | jarr xs => simp [nonListRaises] at hb
    | jnull =>
      refine ⟨by simp [run_model, _list_states, processStates, _make_data_response, hfd], ?_⟩
      have : (run_model ⟨t, u, fd⟩ em (fun _ => .ok .jnull)).2.text
          = "An unexpected error occurred: " ++ em := by
        simp [run_model, _list_states, processStates, _make_data_response, hfd]
      rw [this]
      exact pyStartsWith_append_right _ _ _ rfl
    | jbool b2 =>
      refine ⟨by simp [run_model, _list_states, processStates, _make_data_response, hfd], ?_⟩
      have : (run_model ⟨t, u, fd⟩ em (fun _ => .ok (.jbool b2))).2.text
          = "An unexpected error occurred: " ++ em := by
        simp [run_model, _list_states, processStates, _make_data_response, hfd]
      rw [this]
      exact pyStartsWith_append_right _ _ _ rfl
    | jnum i =>
      refine ⟨by simp [run_model, _list_states, processStates, _make_data_response, hfd], ?_⟩
      have : (run_model ⟨t, u, fd⟩ em (fun _ => .ok (.jnum i))).2.text
          = "An unexpected error occurred: " ++ em := by
        simp [run_model, _list_states, processStates, _make_data_response, hfd]
      rw [this]
      exact pyStartsWith_append_right _ _ _ rfl
    | jstr s2 =>
      by_cases hs : s2 = ""
      · rw [hs] at hb
        simp [nonListRaises] at hb
      · refine ⟨by simp [run_model, _list_states, processStates, _make_data_response, hfd, hs],
          ?_⟩
        have : (run_model ⟨t, u, fd⟩ em (fun _ => .ok (.jstr s2))).2.text
            = "An unexpected error occurred: " ++ em := by
          simp [run_model, _list_states, processStates, _make_data_response, hfd, hs]
        rw [this]
        exact pyStartsWith_append_right _ _ _ rfl
    | jobj fs =>
      cases fs with
      | nil => simp [nonListRaises] at hb
      | cons g fs2 =>
        refine ⟨by simp [run_model, _list_states, processStates, _make_data_response, hfd], ?_⟩
        have : (run_model ⟨t, u, fd⟩ em (fun _ => .ok (.jobj (g :: fs2)))).2.text
            = "An unexpected error occurred: " ++ em := by
          simp [run_model, _list_states, processStates, _make_data_response, hfd]
        rw [this]
        exact pyStartsWith_append_right _ _ _ rfl

theorem failure_paths_envelope_witness :
    ((run_model ⟨"t", "u", some "light"⟩ "boom" (fun _ => .err "conn")).2.data = []
      ∧ pyStartsWith (run_model ⟨"t", "u", some "light"⟩ "boom"
          (fun _ => .err "conn")).2.text "Error:" = true)
    ∧ ((run_model ⟨"t", "u", some "light"⟩ "boom" (fun _ => .ok (.jarr [.jnum 7]))).2.data = []
      ∧ pyStartsWith (run_model ⟨"t", "u", some "light"⟩ "boom"
          (fun _ => .ok (.jarr [.jnum 7]))).2.text "An unexpected error occurred:" = true) := by
  refine ⟨(failure_paths_envelope "t" "u" (some "light") "boom" "conn").1, ?_⟩
  exact (failure_paths_envelope "t" "u" (some "light") "boom" "conn").2.1
    [.jnum 7] (by decide) rfl

/-- C8: registering a second factory under an existing identifier fails
with DuplicateIdentifier, and resolving an identifier absent from the
registry fails with UnknownConnector. -/
theorem registry_contract {α : Type} (r r' : ConnectorRegistry α) (id : String) (f g : α)
    (hreg : register r id f = .ok r')
    (r0 : ConnectorRegistry α) (id0 : String) (habs : ∀ p ∈ r0.entries, p.1 ≠ id0) :
    register r' id g = .error .DuplicateIdentifier
    ∧ resolve r0 id0 = .error .UnknownConnector := by
  constructor
  · unfold register at hreg ⊢
    by_cases hany : r.entries.any (fun p => p.1 == id) = true
    · rw [if_pos hany] at hreg
      cases hreg
    · rw [if_neg hany] at hreg
      cases hreg
      have hlast : (r.entries ++ [(id, f)]).any (fun p => p.1 == id) = true := by
        rw [List.any_append]
        simp
      rw [if_pos hlast]
  · unfold resolve
    have hfind : r0.entries.find? (fun p => p.1 == id0) = none := by
      rw [List.find?_eq_none]
      intro p hp
      simpa using habs p hp
    rw [hfind]

theorem registry_contract_witness :
    register
      (ConnectorRegistry.mk
        ((languagemodelsAll.map fun n => (n, n)) ++ [("HomeAssistant", "HomeAssistant")]))
      "HomeAssistant" "Other" = .error .DuplicateIdentifier
    ∧ resolve (ConnectorRegistry.mk (languagemodelsAll.map fun n => (n, n)))
        "UnregisteredConnector" = .error RegistryError.UnknownConnector := by
  exact registry_contract
    (ConnectorRegistry.mk (languagemodelsAll.map fun n => (n, n)))
    (ConnectorRegistry.mk
      ((languagemodelsAll.map fun n => (n, n)) ++ [("HomeAssistant", "HomeAssistant")]))
    "HomeAssistant" "HomeAssistant" "Other" (by rfl)
    (ConnectorRegistry.mk (languagemodelsAll.map fun n => (n, n)))
    "UnregisteredConnector" (by decide)

/-- C9: an invocation request lacking one of the required fields
(ha_token or base_url) fails with MissingField and issues no HTTP
request. -/
theorem missing_required_field (req : List (String × String)) (em : String)
    (http : HttpRequest → HResp)
    (h : hasField req "ha_token" = false ∨ hasField req "base_url" = false) :
    ∃ n, invoke req em http = ([], .missingField n) := by
  unfold invoke firstMissingRequired inputs
  by_cases h1 : hasField req "ha_token" = true
  · have h2 : hasField req "base_url" = false := by
      rcases h with h' | h'
      · rw [h1] at h'; cases h'
      · exact h'
    refine ⟨"base_url", ?_⟩
    simp [List.filter, List.find?, h1, h2]
  · have h1' : hasField req "ha_token" = false := by
      cases hh : hasField req "ha_token"
      · rfl
      · exact absurd hh h1
    refine ⟨"ha_token", ?_⟩
    simp [List.filter, List.find?, h1']

theorem missing_required_field_witness :
    (hasField [("base_url", "http://ha")] "ha_token" = false
      ∨ hasField [("base_url", "http://ha")] "base_url" = false)
    ∧ ∃ n, invoke [("base_url", "http://ha")] "boom" (fun _ => .err "conn")
        = ([], .missingField n) :=
  ⟨Or.inl rfl,
    missing_required_field [("base_url", "http://ha")] "boom" (fun _ => .err "conn")
      (Or.inl rfl)⟩

theorem filter_domain_prefix_subset_witness :
    ("light" : String) ≠ ""
    ∧ (∀ st ∈ exampleStates, wfState st = true)
    ∧ ∃ ys,
      (_list_states_for_tool ⟨"t", "u", none⟩ "light" "x"
          (fun _ => .ok (.jarr exampleStates))).2 = .jarr ys
      ∧ (run_model ⟨("t" : String), ("u" : String), some "light"⟩ "x"
          (fun _ => .ok (.jarr exampleStates))).2.data = [("result", .jarr ys)]
      ∧ (∀ y ∈ ys, ∃ fs eid, y = .jobj fs ∧ dget fs "entity_id" = some (.jstr eid)
          ∧ pyStartsWith eid ("light" ++ ".") = true)
      ∧ (∀ y ∈ ys, y ∈ exampleStates) :=
  ⟨by decide, by decide,
    filter_domain_prefix_subset ⟨"t", "u", none⟩ "light" "x" (by decide)
      exampleStates (by decide)⟩

theorem no_filter_returns_all_witness :
    ((some "" : Option String) = none ∨ (some "" : Option String) = some "")
    ∧ ((run_model ⟨"t", "u", some ""⟩ "x" (fun _ => .ok (.jarr exampleStates))).2.data
        = [("result", .jarr exampleStates)]
      ∧ dget (run_model ⟨"t", "u", some ""⟩ "x"
          (fun _ => .ok (.jarr exampleStates))).2.data "result" = some (.jarr exampleStates)) :=
  ⟨Or.inr rfl, no_filter_returns_all "t" "u" (some "") (Or.inr rfl) "x" exampleStates⟩

theorem filter_skips_missing_entity_id_witness :
    ("light" : String) ≠ ""
    ∧ (∀ st ∈ exampleStates, wfState st = true)
    ∧ ∃ ys, (_list_states "t" "u" "light" "x" (fun _ => .ok (.jarr exampleStates))).2 = .jarr ys
      ∧ List.Sublist ys exampleStates
      ∧ ∀ fs, JValue.jobj fs ∈ exampleStates → dget fs "entity_id" = none →
          JValue.jobj fs ∉ ys :=
  ⟨by decide, by decide,
    filter_skips_missing_entity_id "t" "u" "light" "x" (by decide) exampleStates (by decide)⟩

/-! Whitespace lemmas for the JSON parser. -/

theorem skipWs_not_ws (c : Char) (rest : List Char) (h : isWsChar c = false) :
    skipWs (c :: rest) = c :: rest := by
  simp [skipWs, h]

theorem skipWs_ws_append (ws rest : List Char) (h : ∀ c ∈ ws, isWsChar c = true) :
    skipWs (ws ++ rest) = skipWs rest := by
  induction ws with
  | nil => rfl
  | cons c cs ih =>
    have hc : isWsChar c = true := h c (List.mem_cons_self c cs)
    simp only [List.cons_append, skipWs, hc, if_true]
    exact ih (fun x hx => h x (List.mem_cons_of_mem c hx))

theorem skipWs_indent (d : Nat) (rest : List Char) :
    skipWs (indentChars d ++ rest) = skipWs rest :=
  skipWs_ws_append _ _ (fun c hc => by
    rw [List.eq_of_mem_replicate hc]
    rfl)

theorem skipWs_newline (rest : List Char) : skipWs ('\n' :: rest) = skipWs rest := by
  simp [skipWs, isWsChar]

theorem skipWs_idem (l : List Char) : skipWs (skipWs l) = skipWs l := by
  induction l with
  | nil => rfl
  | cons c cs ih =>
    by_cases h : isWsChar c = true
    · simp [skipWs, h, ih]
    · have h' : isWsChar c = false := by
        cases hh : isWsChar c
        · rfl
        · exact absurd hh h
      simp [skipWs, h']

theorem parseV_skipWs (fuel : Nat) (input : List Char) :
    parseV fuel (skipWs input) = parseV fuel input := by
  cases fuel with
  | zero => rfl
  | succ f =>
    simp only [parseV, skipWs_idem]

theorem parseItemsV_skipWs (fuel : Nat) (input : List Char) :
    parseItemsV fuel (skipWs input) = parseItemsV fuel input := by
  cases fuel with
  | zero => rfl
  | succ f =>
    simp only [parseItemsV, parseV_skipWs]

theorem parseFieldsV_skipWs (fuel : Nat) (input : List Char) :
    parseFieldsV fuel (skipWs input) = parseFieldsV fuel input := by
  cases fuel with
  | zero => rfl
  | succ f =>
    simp only [parseFieldsV, skipWs_idem]

theorem parseV_ws_append (fuel : Nat) (ws input : List Char)
    (h : ∀ c ∈ ws, isWsChar c = true) :
    parseV fuel (ws ++ input) = parseV fuel input := by
  cases fuel with
  | zero => rfl
  | succ f =>
    simp only [parseV, skipWs_ws_append ws input h]

theorem parseItemsV_ws_append (fuel : Nat) (ws input : List Char)
    (h : ∀ c ∈ ws, isWsChar c = true) :
    parseItemsV fuel (ws ++ input) = parseItemsV fuel input := by
  cases fuel with
  | zero => rfl
  | succ f =>
    simp only [parseItemsV, parseV_ws_append f ws input h]

theorem parseFieldsV_ws_append (fuel : Nat) (ws input : List Char)
    (h : ∀ c ∈ ws, isWsChar c = true) :
    parseFieldsV fuel (ws ++ input) = parseFieldsV fuel input := by
  cases fuel with
  | zero => rfl
  | succ f =>
    simp only [parseFieldsV, skipWs_ws_append ws input h]

/-! Digit lemmas for the number round trip. -/

theorem digitChar_isDigit (n : Nat) (h : n < 10) : (digitChar n).isDigit = true := by
  interval_cases n <;> decide

theorem digitChar_toNat (n : Nat) (h : n < 10) : (digitChar n).toNat = 48 + n := by
  interval_cases n <;> decide

theorem natToChars_lt {n : Nat} (h : n < 10) : natToChars n = [digitChar n] := by
  rw [natToChars]
  simp [h]

theorem natToChars_ge {n : Nat} (h : ¬ n < 10) :
    natToChars n = natToChars (n / 10) ++ [digitChar (n % 10)] := by
  rw [natToChars]
  simp [h]

theorem natToChars_ne_nil (n : Nat) : natToChars n ≠ [] := by
  induction n using natToChars.induct with
  | case1 n h => rw [natToChars_lt h]; simp
  | case2 n h ih => rw [natToChars_ge h]; simp

theorem natToChars_all_digit (n : Nat) : ∀ c ∈ natToChars n, c.isDigit = true := by
  induction n using natToChars.induct with
  | case1 n h =>
    rw [natToChars_lt h]
    intro c hc
    simp at hc
    rw [hc]
    exact digitChar_isDigit n h
  | case2 n h ih =>
    rw [natToChars_ge h]
    intro c hc
    rcases List.mem_append.mp hc with hc | hc
    · exact ih c hc
    · simp at hc
      rw [hc]
      exact digitChar_isDigit _ (by omega)

theorem digitsFold_nil (acc : Nat) : digitsFold acc [] = acc := rfl

theorem digitsFold_cons (acc : Nat) (c : Char) (cs : List Char) :
    digitsFold acc (c :: cs) = digitsFold (acc * 10 + (c.toNat - 48)) cs := rfl

theorem digitsFold_append (a b : List Char) (acc : Nat) :
    digitsFold acc (a ++ b) = digitsFold (digitsFold acc a) b := by
  induction a generalizing acc with
  | nil => rfl
  | cons c cs ih =>
    rw [List.cons_append, digitsFold_cons, digitsFold_cons, ih]

theorem digitsFold_natToChars (n : Nat) :
    ∀ acc, digitsFold acc (natToChars n) = acc * 10 ^ (natToChars n).length + n := by
  induction n using natToChars.induct with
  | case1 n h =>
    intro acc
    rw [natToChars_lt h, digitsFold_cons, digitsFold_nil, digitChar_toNat n h]
    simp only [List.length_singleton, pow_one]
    omega
  | case2 n h ih =>
    intro acc
    rw [natToChars_ge h, digitsFold_append, ih, digitsFold_cons, digitsFold_nil,
      digitChar_toNat _ (by omega)]
    simp only [List.length_append, List.length_singleton, pow_succ]
    have hmod : 48 + n % 10 - 48 = n % 10 := by omega
    rw [hmod]
    have key : (acc * 10 ^ (natToChars (n / 10)).length + n / 10) * 10 + n % 10
        = acc * (10 ^ (natToChars (n / 10)).length * 10) + (n / 10 * 10 + n % 10) := by ring
    rw [key]
    congr 1
    omega

theorem parseDigitsAcc_digits (cs rest : List Char) (acc : Nat)
    (hcs : ∀ c ∈ cs, c.isDigit = true) (hrest : headDigit rest = false) :
    parseDigitsAcc acc (cs ++ rest) = (digitsFold acc cs, rest) := by
  induction cs generalizing acc with
  | nil =>
    cases rest with
    | nil => rfl
    | cons r rs =>
      simp only [headDigit] at hrest
      simp [parseDigitsAcc, hrest, digitsFold_nil]
  | cons c cs ih =>
    have hc : c.isDigit = true := hcs c (List.mem_cons_self c cs)
    simp only [List.cons_append, parseDigitsAcc, hc, if_true, digitsFold_cons]
    exact ih _ (fun x hx => hcs x (List.mem_cons_of_mem c hx))

theorem parseDigits_natToChars (n : Nat) (rest : List Char) (hrest : headDigit rest = false) :
    parseDigitsAcc 0 (natToChars n ++ rest) = (n, rest) := by
  rw [parseDigitsAcc_digits _ _ _ (natToChars_all_digit n) hrest]
  rw [digitsFold_natToChars]
  simp

/-! String escaping round trip. -/

theorem hexVal_hexChar (n : Nat) (h : n < 16) : hexVal (hexChar n) = some n := by
  interval_cases n <;> decide

theorem parseStrAux_escape (cs rest : List Char) :
    parseStrAux (escapeChars cs ++ '"' :: rest) = some (cs, rest) := by
  induction cs generalizing rest with
  | nil =>
    show parseStrAux ('"' :: rest) = some ([], rest)
    rw [parseStrAux.eq_def]
    simp
  | cons c cs ih =>
    show parseStrAux ((escapeChar c ++ escapeChars cs) ++ '"' :: rest) = _
    rw [List.append_assoc]
    unfold escapeChar
    by_cases h1 : c = '"'
    · subst h1
      rw [if_pos rfl]
      show parseStrAux ('\\' :: '"' :: (escapeChars cs ++ '"' :: rest)) = _
      rw [parseStrAux.eq_def]
      simp [unescapeChar, ih]
    · rw [if_neg h1]
      by_cases h2 : c = '\\'
      · subst h2
        rw [if_pos rfl]
        show parseStrAux ('\\' :: '\\' :: (escapeChars cs ++ '"' :: rest)) = _
        rw [parseStrAux.eq_def]
        simp [unescapeChar, ih]
      · rw [if_neg h2]
        by_cases h3 : c = '\n'
        · subst h3
          rw [if_pos rfl]
          show parseStrAux ('\\' :: 'n' :: (escapeChars cs ++ '"' :: rest)) = _
          rw [parseStrAux.eq_def]
          simp [unescapeChar, ih]
        · rw [if_neg h3]
          by_cases h4 : c = '\t'
          · subst h4
            rw [if_pos rfl]
            show parseStrAux ('\\' :: 't' :: (escapeChars cs ++ '"' :: rest)) = _
            rw [parseStrAux.eq_def]
            simp [unescapeChar, ih]
          · rw [if_neg h4]
            by_cases h5 : c = '\r'
            · subst h5
              rw [if_pos rfl]
              show parseStrAux ('\\' :: 'r' :: (escapeChars cs ++ '"' :: rest)) = _
              rw [parseStrAux.eq_def]
              simp [unescapeChar, ih]
            · rw [if_neg h5]
              by_cases h6 : c = '\x08'
              · subst h6
                rw [if_pos rfl]
                show parseStrAux ('\\' :: 'b' :: (escapeChars cs ++ '"' :: rest)) = _
                rw [parseStrAux.eq_def]
                simp [unescapeChar, ih]
              · rw [if_neg h6]
                by_cases h7 : c = '\x0c'
                · subst h7
                  rw [if_pos rfl]
                  show parseStrAux ('\\' :: 'f' :: (escapeChars cs ++ '"' :: rest)) = _
                  rw [parseStrAux.eq_def]
                  simp [unescapeChar, ih]
                · rw [if_neg h7]
                  by_cases h8 : c.toNat < 32
                  · rw [if_pos h8]
                    show parseStrAux ('\\' :: 'u' :: '0' :: '0' :: hexChar (c.toNat / 16)
                        :: hexChar (c.toNat % 16) :: (escapeChars cs ++ '"' :: rest)) = _
                    have hv0 : hexVal '0' = some 0 := by decide
                    have hv1 : hexVal (hexChar (c.toNat / 16)) = some (c.toNat / 16) :=
                      hexVal_hexChar _ (by omega)
                    have hv2 : hexVal (hexChar (c.toNat % 16)) = some (c.toNat % 16) :=
                      hexVal_hexChar _ (by omega)
                    rw [parseStrAux.eq_def]
                    simp [hv0, hv1, hv2, ih]
                    have hc : c.toNat / 16 * 16 + c.toNat % 16 = c.toNat := by omega
                    rw [hc, Char.ofNat_toNat]
                  · rw [if_neg h8]
                    show parseStrAux (c :: (escapeChars cs ++ '"' :: rest)) = _
                    rw [parseStrAux.eq_def]
                    simp [if_neg h1, if_neg h2, ih]

/-! Head-shape lemmas for rendered values. -/

theorem isDigit_ne_of (c : Char) (h : c.isDigit = true) {x : Char} (hx : x.isDigit = false) :
    c ≠ x := by
  intro he
  rw [he] at h
  rw [h] at hx
  cases hx

theorem isDigit_not_ws (c : Char) (h : c.isDigit = true) : isWsChar c = false := by
  have h1 : c ≠ ' ' := isDigit_ne_of c h (by decide)
  have h2 : c ≠ '\n' := isDigit_ne_of c h (by decide)
  have h3 : c ≠ '\t' := isDigit_ne_of c h (by decide)
  have h4 : c ≠ '\r' := isDigit_ne_of c h (by decide)
  simp [isWsChar, h1, h2, h3, h4]

theorem natToChars_head (n : Nat) :
    ∃ c cs, natToChars n = c :: cs ∧ c.isDigit = true := by
  cases hnc : natToChars n with
  | nil => exact absurd hnc (natToChars_ne_nil n)
  | cons c cs =>
    refine ⟨c, cs, rfl, ?_⟩
    exact natToChars_all_digit n c (by rw [hnc]; exact List.mem_cons_self c cs)

theorem renderV_cons (v : JValue) (d : Nat) :
    ∃ c cs, renderV v d = c :: cs ∧ isWsChar c = false ∧ c ≠ ']' ∧ c ≠ '}' := by
  cases v with
  | jnull =>
    refine ⟨'n', ['u', 'l', 'l'], ?_, by decide, by decide, by decide⟩
    rw [renderV]
  | jbool b =>
    cases b
    · refine ⟨'f', ['a', 'l', 's', 'e'], ?_, by decide, by decide, by decide⟩
      rw [renderV]
    · refine ⟨'t', ['r', 'u', 'e'], ?_, by decide, by decide, by decide⟩
      rw [renderV]
  | jnum i =>
    rw [renderV]
    unfold intToChars
    by_cases hneg : i < 0
    · rw [if_pos hneg]
      exact ⟨'-', natToChars i.natAbs, rfl, by decide, by decide, by decide⟩
    · rw [if_neg hneg]
      obtain ⟨c, cs, hc, hdig⟩ := natToChars_head i.natAbs
      exact ⟨c, cs, hc, isDigit_not_ws c hdig,
        isDigit_ne_of c hdig (by decide), isDigit_ne_of c hdig (by decide)⟩
  | jstr s =>
    refine ⟨'"', escapeChars s.data ++ ['"'], ?_, by decide, by decide, by decide⟩
    rw [renderV]
    rfl
  | jarr xs =>
    cases xs with
    | nil =>
      refine ⟨'[', [']'], ?_, by decide, by decide, by decide⟩
      rw [renderV]
    | cons x xs =>
      refine ⟨'[', '\n' :: renderItems (x :: xs) (d + 1) ++ '\n' :: indentChars d ++ [']'],
        ?_, by decide, by decide, by decide⟩
      rw [renderV]
      rfl
  | jobj fs =>
    cases fs with
    | nil =>
      refine ⟨'{', ['}'], ?_, by decide, by decide, by decide⟩
      rw [renderV]
    | cons g fs =>
      refine ⟨'{', '\n' :: renderFields (g :: fs) (d + 1) ++ '\n' :: indentChars d ++ ['}'],
        ?_, by decide, by decide, by decide⟩
      rw [renderV]
      rfl

theorem renderItems_head (x : JValue) (xs : List JValue) (d : Nat) :
    ∃ c0 Z, renderItems (x :: xs) d = indentChars d ++ c0 :: Z
      ∧ isWsChar c0 = false ∧ c0 ≠ ']' := by
  obtain ⟨c0, cs0, hc0, hws, hne, _⟩ := renderV_cons x d
  cases xs with
  | nil =>
    refine ⟨c0, cs0, ?_, hws, hne⟩
    rw [renderItems, hc0]
  | cons y ys =>
    refine ⟨c0, cs0 ++ ',' :: '\n' :: renderItems (y :: ys) d, ?_, hws, hne⟩
    rw [renderItems, hc0]
    simp [List.cons_append, List.append_assoc]

theorem renderFields_head (g : String × JValue) (fs : List (String × JValue)) (d : Nat) :
    ∃ Z, renderFields (g :: fs) d = indentChars d ++ '"' :: Z := by
  obtain ⟨k, v⟩ := g
  cases fs with
  | nil =>
    refine ⟨escapeChars k.data ++ '"' :: ':' :: ' ' :: renderV v d, ?_⟩
    rw [renderFields]
    simp [List.cons_append, List.append_assoc]
  | cons g2 fs =>
    refine ⟨escapeChars k.data ++ '"' :: ':' :: ' ' :: renderV v d
      ++ ',' :: '\n' :: renderFields (g2 :: fs) d, ?_⟩
    rw [renderFields]
    simp [List.cons_append, List.append_assoc]

theorem indentChars_ws (d : Nat) : ∀ c ∈ indentChars d, isWsChar c = true := by
  intro c hc
  rw [List.eq_of_mem_replicate hc]
  rfl

theorem need_pos (v : JValue) : 1 ≤ need v := by
  cases v <;> rw [need] <;> omega

/-! Round trip for the leaf values. -/

theorem parsesBack_jnull : ParsesBack .jnull := by
  intro d rest fuel hfuel hrest
  obtain ⟨f, rfl⟩ : ∃ f, fuel = f + 1 :=
    ⟨fuel - 1, by have := need_pos JValue.jnull; omega⟩
  rw [renderV]
  show parseV (f + 1) ('n' :: 'u' :: 'l' :: 'l' :: rest) = some (.jnull, rest)
  rw [parseV, skipWs_not_ws _ _ (by decide)]
  simp

theorem parsesBack_jbool (b : Bool) : ParsesBack (.jbool b) := by
  intro d rest fuel hfuel hrest
  obtain ⟨f, rfl⟩ : ∃ f, fuel = f + 1 :=
    ⟨fuel - 1, by have := need_pos (JValue.jbool b); omega⟩
  cases b
  · rw [renderV]
    show parseV (f + 1) ('f' :: 'a' :: 'l' :: 's' :: 'e' :: rest) = some (.jbool false, rest)
    rw [parseV, skipWs_not_ws _ _ (by decide)]
    simp
  · rw [renderV]
    show parseV (f + 1) ('t' :: 'r' :: 'u' :: 'e' :: rest) = some (.jbool true, rest)
    rw [parseV, skipWs_not_ws _ _ (by decide)]
    simp

theorem parsesBack_jstr (s : String) : ParsesBack (.jstr s) := by
  intro d rest fuel hfuel hrest
  obtain ⟨f, rfl⟩ : ∃ f, fuel = f + 1 :=
    ⟨fuel - 1, by have := need_pos (JValue.jstr s); omega⟩
  rw [renderV]
  simp only [List.cons_append, List.append_assoc, List.singleton_append]
  rw [parseV, skipWs_not_ws _ _ (by decide)]
  simp [parseStrAux_escape]

theorem parsesBack_jnum (i : Int) : ParsesBack (.jnum i) := by
  intro d rest fuel hfuel hrest
  obtain ⟨f, rfl⟩ : ∃ f, fuel = f + 1 :=
    ⟨fuel - 1, by have := need_pos (JValue.jnum i); omega⟩
  rw [renderV]
  unfold intToChars
  obtain ⟨c, cs, hc, hdig⟩ := natToChars_head i.natAbs
  by_cases hneg : i < 0
  · rw [if_pos hneg, hc]
    simp only [List.cons_append]
    rw [parseV, skipWs_not_ws _ _ (by decide)]
    have hpd : parseDigitsAcc 0 (c :: (cs ++ rest)) = (i.natAbs, rest) := by
      have he : c :: (cs ++ rest) = natToChars i.natAbs ++ rest := by
        rw [hc]
        rfl
      rw [he]
      exact parseDigits_natToChars _ _ hrest
    simp only [List.cons_append] at hpd
    simp [hdig, hpd]
    rw [abs_of_neg hneg, neg_neg]
  · rw [if_neg hneg, hc]
    simp only [List.cons_append]
    rw [parseV, skipWs_not_ws _ _ (isDigit_not_ws c hdig)]
    have hpd : parseDigitsAcc 0 (c :: (cs ++ rest)) = (i.natAbs, rest) := by
      have he : c :: (cs ++ rest) = natToChars i.natAbs ++ rest := by
        rw [hc]
        rfl
      rw [he]
      exact parseDigits_natToChars _ _ hrest
    simp only [List.cons_append] at hpd
    have hne1 : c ≠ '"' := isDigit_ne_of c hdig (by decide)
    have hne2 : c ≠ '[' := isDigit_ne_of c hdig (by decide)
    have hne3 : c ≠ '\x7b' := isDigit_ne_of c hdig (by decide)
    have hne4 : c ≠ 'n' := isDigit_ne_of c hdig (by decide)
    have hne5 : c ≠ 't' := isDigit_ne_of c hdig (by decide)
    have hne6 : c ≠ 'f' := isDigit_ne_of c hdig (by decide)
    have hne7 : c ≠ '-' := isDigit_ne_of c hdig (by decide)
    simp [hne1, hne2, hne3, hne4, hne5, hne6, hne7, hdig, hpd]
    omega

/-! Round trip for item lists. -/

theorem newline_ws : ∀ c ∈ ['\n'], isWsChar c = true := by
  intro c hc
  simp at hc
  rw [hc]
  rfl

theorem itemsParseBack_of (xs : List JValue) (hxs : xs ≠ [])
    (hall : ∀ x ∈ xs, ParsesBack x) : ItemsParseBack xs := by
  induction xs with
  | nil => cases hxs rfl
  | cons x xs ih =>
    intro d dc rest fuel hfuel
    have hPx : ParsesBack x := hall x (List.mem_cons_self x xs)
    cases xs with
    | nil =>
      rw [needItems, needItems] at hfuel
      simp only [Nat.max_zero] at hfuel
      obtain ⟨f, rfl⟩ : ∃ f, fuel = f + 1 := ⟨fuel - 1, by omega⟩
      rw [renderItems, parseItemsV, List.append_assoc,
        parseV_ws_append f (indentChars d) _ (indentChars_ws d),
        hPx d ('\n' :: (indentChars dc ++ (']' :: rest))) f (by omega) rfl]
      have hsk : skipWs ('\n' :: (indentChars dc ++ (']' :: rest))) = ']' :: rest := by
        rw [skipWs_newline, skipWs_ws_append _ _ (indentChars_ws dc),
          skipWs_not_ws _ _ (by decide)]
      simp [hsk]
    | cons y ys =>
      rw [needItems] at hfuel
      have hmx1 := Nat.le_max_left (need x) (needItems (y :: ys))
      have hmx2 := Nat.le_max_right (need x) (needItems (y :: ys))
      obtain ⟨f, rfl⟩ : ∃ f, fuel = f + 1 := ⟨fuel - 1, by omega⟩
      rw [renderItems, parseItemsV]
      simp only [List.append_assoc, List.cons_append]
      rw [parseV_ws_append f (indentChars d) _ (indentChars_ws d),
        hPx d (',' :: ('\n' :: (renderItems (y :: ys) d
          ++ ('\n' :: (indentChars dc ++ (']' :: rest)))))) f (by omega) rfl]
      have hrec : parseItemsV f ('\n' :: (renderItems (y :: ys) d
          ++ ('\n' :: (indentChars dc ++ (']' :: rest))))) = some (y :: ys, rest) := by
        have he : ('\n' :: (renderItems (y :: ys) d
            ++ ('\n' :: (indentChars dc ++ (']' :: rest)))))
            = ['\n'] ++ (renderItems (y :: ys) d
              ++ ('\n' :: (indentChars dc ++ (']' :: rest)))) := rfl
        rw [he, parseItemsV_ws_append f ['\n'] _ newline_ws]
        exact ih (by simp) (fun z hz => hall z (List.mem_cons_of_mem x hz)) d dc rest f
          (by omega)
      have hskc : skipWs (',' :: ('\n' :: (renderItems (y :: ys) d
          ++ ('\n' :: (indentChars dc ++ (']' :: rest))))))
          = ',' :: ('\n' :: (renderItems (y :: ys) d
            ++ ('\n' :: (indentChars dc ++ (']' :: rest))))) :=
        skipWs_not_ws _ _ (by decide)
      simp [hskc, hrec]

/-! Round trip for field lists. -/

theorem space_ws : ∀ c ∈ [' '], isWsChar c = true := by
  intro c hc
  simp at hc
  rw [hc]
  rfl

theorem fieldsParseBack_of (fs : List (String × JValue)) (hfs : fs ≠ [])
    (hall : ∀ kv ∈ fs, ParsesBack kv.2) : FieldsParseBack fs := by
  induction fs with
  | nil => cases hfs rfl
  | cons g fs ih =>
    obtain ⟨k, v⟩ := g
    intro d dc rest fuel hfuel
    have hPv : ParsesBack v := hall (k, v) (List.mem_cons_self _ fs)
    cases fs with
    | nil =>
      rw [needFields, needFields] at hfuel
      simp only [Nat.max_zero] at hfuel
      obtain ⟨f, rfl⟩ : ∃ f, fuel = f + 1 := ⟨fuel - 1, by omega⟩
      rw [renderFields, parseFieldsV]
      simp only [List.append_assoc, List.cons_append]
      rw [skipWs_ws_append _ _ (indentChars_ws d), skipWs_not_ws _ _ (by decide)]
      have he : (' ' :: (renderV v d ++ ('\n' :: (indentChars dc ++ ('}' :: rest)))))
          = [' '] ++ (renderV v d ++ ('\n' :: (indentChars dc ++ ('}' :: rest)))) := rfl
      have hsk1 : skipWs (':' :: (' ' :: (renderV v d
          ++ ('\n' :: (indentChars dc ++ ('}' :: rest))))))
          = ':' :: (' ' :: (renderV v d ++ ('\n' :: (indentChars dc ++ ('}' :: rest))))) :=
        skipWs_not_ws _ _ (by decide)
      have hval : parseV f (' ' :: (renderV v d ++ ('\n' :: (indentChars dc ++ ('}' :: rest)))))
          = some (v, '\n' :: (indentChars dc ++ ('}' :: rest))) := by
        rw [he, parseV_ws_append f [' '] _ space_ws]
        exact hPv d _ f (by omega) rfl
      have hsk2 : skipWs ('\n' :: (indentChars dc ++ ('}' :: rest))) = '}' :: rest := by
        rw [skipWs_newline, skipWs_ws_append _ _ (indentChars_ws dc),
          skipWs_not_ws _ _ (by decide)]
      simp [parseStrAux_escape, hsk1, hval, hsk2]
    | cons g2 fs =>
      rw [needFields] at hfuel
      have hmx1 := Nat.le_max_left (need v) (needFields (g2 :: fs))
      have hmx2 := Nat.le_max_right (need v) (needFields (g2 :: fs))
      obtain ⟨f, rfl⟩ : ∃ f, fuel = f + 1 := ⟨fuel - 1, by omega⟩
      rw [renderFields, parseFieldsV]
      simp only [List.append_assoc, List.cons_append]
      rw [skipWs_ws_append _ _ (indentChars_ws d), skipWs_not_ws _ _ (by decide)]
      have he : (' ' :: (renderV v d ++ (',' :: ('\n' :: (renderFields (g2 :: fs) d
            ++ ('\n' :: (indentChars dc ++ ('}' :: rest))))))))
          = [' '] ++ (renderV v d ++ (',' :: ('\n' :: (renderFields (g2 :: fs) d
            ++ ('\n' :: (indentChars dc ++ ('}' :: rest))))))) := rfl
      have hsk1 : skipWs (':' :: (' ' :: (renderV v d ++ (',' :: ('\n' :: (renderFields (g2 :: fs) d
            ++ ('\n' :: (indentChars dc ++ ('}' :: rest)))))))))
          = ':' :: (' ' :: (renderV v d ++ (',' :: ('\n' :: (renderFields (g2 :: fs) d
            ++ ('\n' :: (indentChars dc ++ ('}' :: rest)))))))) :=
        skipWs_not_ws _ _ (by decide)
      have hval : parseV f (' ' :: (renderV v d ++ (',' :: ('\n' :: (renderFields (g2 :: fs) d
            ++ ('\n' :: (indentChars dc ++ ('}' :: rest))))))))
          = some (v, ',' :: ('\n' :: (renderFields (g2 :: fs) d
            ++ ('\n' :: (indentChars dc ++ ('}' :: rest)))))) := by
        rw [he, parseV_ws_append f [' '] _ space_ws]
        exact hPv d _ f (by omega) rfl
      have hsk2 : skipWs (',' :: ('\n' :: (renderFields (g2 :: fs) d
            ++ ('\n' :: (indentChars dc ++ ('}' :: rest))))))
          = ',' :: ('\n' :: (renderFields (g2 :: fs) d
            ++ ('\n' :: (indentChars dc ++ ('}' :: rest))))) :=
        skipWs_not_ws _ _ (by decide)
      have hrec : parseFieldsV f ('\n' :: (renderFields (g2 :: fs) d
            ++ ('\n' :: (indentChars dc ++ ('}' :: rest))))) = some (g2 :: fs, rest) := by
        have he2 : ('\n' :: (renderFields (g2 :: fs) d
              ++ ('\n' :: (indentChars dc ++ ('}' :: rest)))))
            = ['\n'] ++ (renderFields (g2 :: fs) d
              ++ ('\n' :: (indentChars dc ++ ('}' :: rest)))) := rfl
        rw [he2, parseFieldsV_ws_append f ['\n'] _ newline_ws]
        exact ih (by simp) (fun z hz => hall z (List.mem_cons_of_mem (k, v) hz)) d dc rest f
          (by omega)
      simp [parseStrAux_escape, hsk1, hval, hsk2, hrec]

/-! Round trip for containers. -/

theorem parsesBack_jarr (xs : List JValue) (hall : ∀ x ∈ xs, ParsesBack x) :
    ParsesBack (.jarr xs) := by
  intro d rest fuel hfuel hrest
  obtain ⟨f, rfl⟩ : ∃ f, fuel = f + 1 :=
    ⟨fuel - 1, by have := need_pos (JValue.jarr xs); omega⟩
  cases xs with
  | nil =>
    rw [renderV]
    show parseV (f + 1) ('[' :: (']' :: rest)) = some (.jarr [], rest)
    rw [parseV, skipWs_not_ws _ _ (by decide)]
    have hsk : skipWs (']' :: rest) = ']' :: rest := skipWs_not_ws _ _ (by decide)
    simp [hsk]
  | cons x xs =>
    have hneed : needItems (x :: xs) ≤ f := by
      rw [need] at hfuel
      omega
    rw [renderV]
    simp only [List.append_assoc, List.cons_append, List.nil_append]
    rw [parseV, skipWs_not_ws _ _ (by decide)]
    obtain ⟨c0, Z, hshape, hws0, hne0⟩ := renderItems_head x xs (d + 1)
    have hsk : skipWs ('\n' :: (renderItems (x :: xs) (d + 1)
          ++ ('\n' :: (indentChars d ++ (']' :: rest)))))
        = c0 :: (Z ++ ('\n' :: (indentChars d ++ (']' :: rest)))) := by
      rw [skipWs_newline, hshape]
      simp only [List.append_assoc, List.cons_append]
      rw [skipWs_ws_append _ _ (indentChars_ws (d + 1)), skipWs_not_ws _ _ hws0]
    have hitems : parseItemsV f (c0 :: (Z ++ ('\n' :: (indentChars d ++ (']' :: rest)))))
        = some (x :: xs, rest) := by
      calc parseItemsV f (c0 :: (Z ++ ('\n' :: (indentChars d ++ (']' :: rest)))))
          = parseItemsV f ((c0 :: Z) ++ ('\n' :: (indentChars d ++ (']' :: rest)))) := by
            rw [List.cons_append]
        _ = parseItemsV f (indentChars (d + 1)
              ++ ((c0 :: Z) ++ ('\n' :: (indentChars d ++ (']' :: rest))))) :=
            (parseItemsV_ws_append f _ _ (indentChars_ws (d + 1))).symm
        _ = parseItemsV f (renderItems (x :: xs) (d + 1)
              ++ ('\n' :: (indentChars d ++ (']' :: rest)))) := by
            rw [hshape]
            simp only [List.append_assoc, List.cons_append]
        _ = some (x :: xs, rest) :=
            itemsParseBack_of (x :: xs) (by simp) hall (d + 1) d rest f hneed
    simp [hsk, hne0, hitems]

theorem parsesBack_jobj (fs : List (String × JValue)) (hall : ∀ kv ∈ fs, ParsesBack kv.2) :
    ParsesBack (.jobj fs) := by
  intro d rest fuel hfuel hrest
  obtain ⟨f, rfl⟩ : ∃ f, fuel = f + 1 :=
    ⟨fuel - 1, by have := need_pos (JValue.jobj fs); omega⟩
  cases fs with
  | nil =>
    rw [renderV]
    show parseV (f + 1) ('{' :: ('}' :: rest)) = some (.jobj [], rest)
    rw [parseV, skipWs_not_ws _ _ (by decide)]
    have hsk : skipWs ('}' :: rest) = '}' :: rest := skipWs_not_ws _ _ (by decide)
    simp [hsk]
  | cons g fs =>
    have hneed : needFields (g :: fs) ≤ f := by
      rw [need] at hfuel
      omega
    rw [renderV]
    simp only [List.append_assoc, List.cons_append, List.nil_append]
    rw [parseV, skipWs_not_ws _ _ (by decide)]
    obtain ⟨Z, hshape⟩ := renderFields_head g fs (d + 1)
    have hsk : skipWs ('\n' :: (renderFields (g :: fs) (d + 1)
          ++ ('\n' :: (indentChars d ++ ('}' :: rest)))))
        = '"' :: (Z ++ ('\n' :: (indentChars d ++ ('}' :: rest)))) := by
      rw [skipWs_newline, hshape]
      simp only [List.append_assoc, List.cons_append]
      rw [skipWs_ws_append _ _ (indentChars_ws (d + 1)), skipWs_not_ws _ _ (by decide)]
    have hflds : parseFieldsV f ('"' :: (Z ++ ('\n' :: (indentChars d ++ ('}' :: rest)))))
        = some (g :: fs, rest) := by
      calc parseFieldsV f ('"' :: (Z ++ ('\n' :: (indentChars d ++ ('}' :: rest)))))
          = parseFieldsV f (('"' :: Z) ++ ('\n' :: (indentChars d ++ ('}' :: rest)))) := by
            rw [List.cons_append]
        _ = parseFieldsV f (indentChars (d + 1)
              ++ (('"' :: Z) ++ ('\n' :: (indentChars d ++ ('}' :: rest))))) :=
            (parseFieldsV_ws_append f _ _ (indentChars_ws (d + 1))).symm
        _ = parseFieldsV f (renderFields (g :: fs) (d + 1)
              ++ ('\n' :: (indentChars d ++ ('}' :: rest)))) := by
            rw [hshape]
            simp only [List.append_assoc, List.cons_append]
        _ = some (g :: fs, rest) :=
            fieldsParseBack_of (g :: fs) (by simp) hall (d + 1) d rest f hneed
    simp [hsk, hflds]

theorem parsesBack_all (v : JValue) : ParsesBack v := by
  suffices h : ∀ (N : Nat) (w : JValue), sizeOf w ≤ N → ParsesBack w from
    h (sizeOf v) v le_rfl
  intro N
  induction N with
  | zero =>
    intro w hw
    exfalso
    cases w <;> simp at hw <;> omega
  | succ n ih =>
    intro w hw
    cases w with
    | jnull => exact parsesBack_jnull
    | jbool b => exact parsesBack_jbool b
    | jnum i => exact parsesBack_jnum i
    | jstr s => exact parsesBack_jstr s
    | jarr xs =>
      apply parsesBack_jarr
      intro x hx
      apply ih
      have h1 : sizeOf x < sizeOf xs := List.sizeOf_lt_of_mem hx
      have h2 : sizeOf (JValue.jarr xs) = 1 + sizeOf xs := by simp
      omega
    | jobj fs =>
      apply parsesBack_jobj
      intro kv hkv
      obtain ⟨a, b⟩ := kv
      apply ih
      show sizeOf b ≤ n
      have h1 : sizeOf ((a, b) : String × JValue) < sizeOf fs := List.sizeOf_lt_of_mem hkv
      have h2 : sizeOf ((a, b) : String × JValue) = 1 + sizeOf a + sizeOf b := by simp
      have h3 : sizeOf (JValue.jobj fs) = 1 + sizeOf fs := by simp
      omega

/-! The default fuel of parseJson suffices for a dumped value. -/

theorem renderV_length_pos (v : JValue) (d : Nat) : 1 ≤ (renderV v d).length := by
  obtain ⟨c, cs, hc, _, _, _⟩ := renderV_cons v d
  rw [hc]
  simp

theorem needItems_le (xs : List JValue) (d : Nat)
    (hall : ∀ x ∈ xs, ∀ d2 : Nat, need x ≤ (renderV x d2).length) (hne : xs ≠ []) :
    needItems xs ≤ (renderItems xs d).length + 1 := by
  induction xs with
  | nil => cases hne rfl
  | cons x xs ih =>
    cases xs with
    | nil =>
      rw [needItems, needItems, renderItems]
      have hx := hall x (List.mem_cons_self x []) d
      simp only [Nat.max_zero, List.length_append]
      omega
    | cons y ys =>
      rw [needItems, renderItems]
      have hx := hall x (List.mem_cons_self x (y :: ys)) d
      have hrec := ih (fun z hz => hall z (List.mem_cons_of_mem x hz)) (by simp)
      have hpos := renderV_length_pos x d
      simp only [List.length_append, List.length_cons]
      omega

theorem needFields_le (fs : List (String × JValue)) (d : Nat)
    (hall : ∀ kv ∈ fs, ∀ d2 : Nat, need kv.2 ≤ (renderV kv.2 d2).length) (hne : fs ≠ []) :
    needFields fs ≤ (renderFields fs d).length + 1 := by
  induction fs with
  | nil => cases hne rfl
  | cons g fs ih =>
    obtain ⟨k, v⟩ := g
    cases fs with
    | nil =>
      rw [needFields, needFields, renderFields]
      have hv : need v ≤ (renderV v d).length := hall (k, v) (List.mem_cons_self _ []) d
      simp only [Nat.max_zero, List.length_append, List.length_cons]
      omega
    | cons g2 fs =>
      rw [needFields, renderFields]
      have hv : need v ≤ (renderV v d).length := hall (k, v) (List.mem_cons_self _ (g2 :: fs)) d
      have hrec := ih (fun z hz => hall z (List.mem_cons_of_mem (k, v) hz)) (by simp)
      have hpos := renderV_length_pos v d
      simp only [List.length_append, List.length_cons]
      omega

theorem need_le_length (v : JValue) (d : Nat) : need v ≤ (renderV v d).length := by
  suffices h : ∀ (N : Nat) (w : JValue), sizeOf w ≤ N → ∀ d2 : Nat,
      need w ≤ (renderV w d2).length from h (sizeOf v) v le_rfl d
  intro N
  induction N with
  | zero =>
    intro w hw
    exfalso
    cases w <;> simp at hw <;> omega
  | succ n ih =>
    intro w hw d2
    cases w with
    | jnull =>
      rw [need, renderV]
      simp
    | jbool b =>
      cases b <;> rw [need, renderV] <;> simp
    | jnum i =>
      rw [need]
      exact le_trans (by omega) (renderV_length_pos (.jnum i) d2)
    | jstr s =>
      rw [need]
      exact le_trans (by omega) (renderV_length_pos (.jstr s) d2)
    | jarr xs =>
      have hall : ∀ x ∈ xs, ∀ d3 : Nat, need x ≤ (renderV x d3).length := by
        intro x hx d3
        apply ih
        · have h1 : sizeOf x < sizeOf xs := List.sizeOf_lt_of_mem hx
          have h2 : sizeOf (JValue.jarr xs) = 1 + sizeOf xs := by simp
          omega
      cases xs with
      | nil =>
        rw [need, needItems, renderV]
        simp
      | cons x xs =>
        rw [need, renderV]
        have hit := needItems_le (x :: xs) (d2 + 1) hall (by simp)
        simp only [List.length_append, List.length_cons]
        omega
    | jobj fs =>
      have hall : ∀ kv ∈ fs, ∀ d3 : Nat, need kv.2 ≤ (renderV kv.2 d3).length := by
        intro kv hkv d3
        obtain ⟨a, b⟩ := kv
        apply ih
        · show sizeOf b ≤ n
          have h1 : sizeOf ((a, b) : String × JValue) < sizeOf fs := List.sizeOf_lt_of_mem hkv
          have h2 : sizeOf ((a, b) : String × JValue) = 1 + sizeOf a + sizeOf b := by simp
          have h3 : sizeOf (JValue.jobj fs) = 1 + sizeOf fs := by simp
          omega
      cases fs with
      | nil =>
        rw [need, needFields, renderV]
        simp
      | cons g fs =>
        rw [need, renderV]
        have hfl := needFields_le (g :: fs) (d2 + 1) hall (by simp)
        simp only [List.length_append, List.length_cons]
        omega

theorem parse_dumps (v : JValue) : parseJson (dumps v) = some v := by
  have hfuel : need v ≤ (renderV v 0).length + 1 :=
    le_trans (need_le_length v 0) (by omega)
  have h := parsesBack_all v 0 [] ((renderV v 0).length + 1) hfuel rfl
  rw [List.append_nil] at h
  show (match parseV ((renderV v 0).length + 1) (renderV v 0) with
    | some (w, r) =>
      (match skipWs r with
       | [] => some w
       | _ => none)
    | none => none) = some v
  rw [h]
  rfl

/-- C5: for every structured success value p handed to the response
formatter, the text of the returned envelope parses as JSON equal to
the payload — the payload being the object wrapping p under the result
key when p is a list, and p itself when p is a mapping. -/
theorem response_text_roundtrip (p : JValue) (h : isListOrDict p = true) :
    parseJson (_make_data_response p).text = some (.jobj (expectedPayload p))
    ∧ (_make_data_response p).data = expectedPayload p := by
  cases p with
  | jarr xs =>
    constructor
    · show parseJson (dumps (.jobj [("result", .jarr xs)]))
        = some (.jobj (expectedPayload (.jarr xs)))
      rw [parse_dumps]
      rfl
    · rfl
  | jobj fs =>
    constructor
    · show parseJson (dumps (.jobj fs)) = some (.jobj (expectedPayload (.jobj fs)))
      rw [parse_dumps]
      rfl
    · rfl
  | jnull => simp [isListOrDict] at h
  | jbool b => simp [isListOrDict] at h
  | jnum i => simp [isListOrDict] at h
  | jstr s => simp [isListOrDict] at h

theorem response_text_roundtrip_witness :
    isListOrDict (.jobj [("a", .jnull)]) = true
    ∧ (parseJson (_make_data_response (.jobj [("a", .jnull)])).text
        = some (.jobj (expectedPayload (.jobj [("a", .jnull)])))
      ∧ (_make_data_response (.jobj [("a", .jnull)])).data
        = expectedPayload (.jobj [("a", .jnull)])) :=
  ⟨rfl, response_text_roundtrip (.jobj [("a", .jnull)]) rfl⟩
